import Mathlib

/-!
Verification of the badge/registration data-model logic of ubersystem
(`uber/models.py`): badge-number allocation (`Session.next_badge_num`),
badge shifting (`shift_badges`), group badge assignment (`assign_badges`),
the `Choice`/`MultiChoice` column types, the `Tracking` audit diff logic,
the `BADGE_LOCK` flush discipline and the startup DB retry loop.

Python integers are modelled as `Int` (they are unbounded), truthiness of an
integer as `≠ 0`, and fallible operations return `Except`/`Option`.
-/

namespace Uber

/-- The slice of the global configuration object `c` used by the badge logic. -/
structure Config where
  PREASSIGNED_BADGE_TYPES : List Int
  BADGE_RANGES : Int → Int × Int
  MAX_BADGE : Int
  SHIFT_CUSTOM_BADGES : Bool
  ATTENDEE_BADGE : Int
  PAID_BY_GROUP : Int
  BAND_RIBBON : Int
  DEALER_ASST_RIBBON : Int
  NO_RIBBON : Int

/-- The columns of an `Attendee` row that the badge and group logic reads or
writes.  `id` stands for the UUID primary key (`MagModel.__eq__` compares
ids); `registered` is the registration timestamp; `first_name` empty means
the attendee `is_unassigned`. -/
structure Attendee where
  id : Nat
  badge_type : Int
  badge_num : Int
  first_name : String
  paid : Int
  ribbon : Int
  registered : Int
deriving DecidableEq, Repr

/-- The filter of `Session.next_badge_num`: attendees of the given badge type
whose badge number lies inside `c.BADGE_RANGES[badge_type]`. -/
def sameTypeBadges (cfg : Config) (existing : List Attendee) (badge_type : Int) :
    List Attendee :=
  existing.filter fun a =>
    decide (a.badge_type = badge_type
      ∧ (cfg.BADGE_RANGES badge_type).1 ≤ a.badge_num
      ∧ a.badge_num ≤ (cfg.BADGE_RANGES badge_type).2)

/-- The badge number of the first row of the same-type query ordered by
`badge_num` descending, i.e. the greatest badge number in the list. -/
def highestBadgeNum : List Attendee → Int
  | [] => 0
  | a :: rest => rest.foldl (fun m x => max m x.badge_num) a.badge_num

/-- `Session.SessionMixin.next_badge_num(badge_type, old_badge_num)`.
`existing` are the persisted attendees visible to the query; `pending` is
`chain(self.new, self.dirty)` restricted to `Attendee` instances. -/
def nextBadgeNum (cfg : Config) (existing pending : List Attendee)
    (badge_type old_badge_num : Int) : Int :=
  if badge_type ∉ cfg.PREASSIGNED_BADGE_TYPES then 0
  else
    let sametype := sameTypeBadges cfg existing badge_type
    let base :=
      if sametype.length ≠ 0 then
        let hi := highestBadgeNum sametype
        if old_badge_num ≠ 0 ∧ hi = old_badge_num then hi else hi + 1
      else (cfg.BADGE_RANGES badge_type).1
    pending.foldl
      (fun nxt a => if a.badge_type = badge_type then max nxt (1 + a.badge_num) else nxt)
      base

theorem foldl_max_ge_init (l : List Attendee) (m : Int) :
    m ≤ l.foldl (fun m x => max m x.badge_num) m := by
  induction l generalizing m with
  | nil => simp
  | cons a rest ih =>
    simp only [List.foldl_cons]
    exact le_trans (le_max_left _ _) (ih _)

theorem foldl_max_ge_mem (l : List Attendee) (m : Int) (a : Attendee) (ha : a ∈ l) :
    a.badge_num ≤ l.foldl (fun m x => max m x.badge_num) m := by
  induction l generalizing m with
  | nil => cases ha
  | cons b rest ih =>
    simp only [List.foldl_cons]
    rcases List.mem_cons.mp ha with h | h
    · subst h
      exact le_trans (le_max_right _ _) (foldl_max_ge_init _ _)
    · exact ih _ h

theorem foldl_max_attained (l : List Attendee) (m : Int) :
    l.foldl (fun m x => max m x.badge_num) m = m
      ∨ ∃ a ∈ l, l.foldl (fun m x => max m x.badge_num) m = a.badge_num := by
  induction l generalizing m with
  | nil => exact Or.inl rfl
  | cons b rest ih =>
    simp only [List.foldl_cons]
    rcases ih (max m b.badge_num) with h | ⟨a, ha, h⟩
    · rcases max_choice m b.badge_num with hm | hm
      · exact Or.inl (h.trans hm)
      · exact Or.inr ⟨b, List.mem_cons_self _ _, h.trans hm⟩
    · exact Or.inr ⟨a, List.mem_cons_of_mem _ ha, h⟩

theorem highestBadgeNum_ge (l : List Attendee) (a : Attendee) (ha : a ∈ l) :
    a.badge_num ≤ highestBadgeNum l := by
  cases l with
  | nil => cases ha
  | cons b rest =>
    unfold highestBadgeNum
    rcases List.mem_cons.mp ha with h | h
    · subst h; exact foldl_max_ge_init _ _
    · exact foldl_max_ge_mem _ _ _ h

theorem highestBadgeNum_mem (l : List Attendee) (hl : l ≠ []) :
    ∃ a ∈ l, highestBadgeNum l = a.badge_num := by
  cases l with
  | nil => exact absurd rfl hl
  | cons b rest =>
    unfold highestBadgeNum
    rcases foldl_max_attained rest b.badge_num with h | ⟨a, ha, h⟩
    · exact ⟨b, List.mem_cons_self _ _, h⟩
    · exact ⟨a, List.mem_cons_of_mem _ ha, h⟩

/-- The fold over pending session attendees in `next_badge_num`. -/
def pendingAdjust (badge_type : Int) (pending : List Attendee) (base : Int) : Int :=
  pending.foldl
    (fun nxt a => if a.badge_type = badge_type then max nxt (1 + a.badge_num) else nxt)
    base

theorem pendingAdjust_ge_base (badge_type : Int) (pending : List Attendee) (base : Int) :
    base ≤ pendingAdjust badge_type pending base := by
  induction pending generalizing base with
  | nil => exact le_refl _
  | cons a rest ih =>
    unfold pendingAdjust at *
    simp only [List.foldl_cons]
    by_cases h : a.badge_type = badge_type
    · simp only [if_pos h]
      exact le_trans (le_max_left _ _) (ih _)
    · simp only [if_neg h]
      exact ih _

theorem pendingAdjust_ge_pending (badge_type : Int) (pending : List Attendee)
    (base : Int) (p : Attendee) (hp : p ∈ pending) (ht : p.badge_type = badge_type) :
    1 + p.badge_num ≤ pendingAdjust badge_type pending base := by
  induction pending generalizing base with
  | nil => cases hp
  | cons a rest ih =>
    unfold pendingAdjust at *
    simp only [List.foldl_cons]
    rcases List.mem_cons.mp hp with h | h
    · subst h
      simp only [if_pos ht]
      exact le_trans (le_max_right _ _) (pendingAdjust_ge_base _ _ _)
    · by_cases hb : a.badge_type = badge_type
      · simp only [if_pos hb]; exact ih _ h
      · simp only [if_neg hb]; exact ih _ h

theorem pendingAdjust_attained (badge_type : Int) (pending : List Attendee) (base : Int) :
    pendingAdjust badge_type pending base = base
      ∨ ∃ p ∈ pending, p.badge_type = badge_type
          ∧ pendingAdjust badge_type pending base = 1 + p.badge_num := by
  induction pending generalizing base with
  | nil => exact Or.inl rfl
  | cons a rest ih =>
    unfold pendingAdjust at *
    simp only [List.foldl_cons]
    by_cases hb : a.badge_type = badge_type
    · simp only [if_pos hb]
      rcases ih (max base (1 + a.badge_num)) with h | ⟨p, hp, htp, h⟩
      · rcases max_choice base (1 + a.badge_num) with hm | hm
        · exact Or.inl (h.trans hm)
        · exact Or.inr ⟨a, List.mem_cons_self _ _, hb, h.trans hm⟩
      · exact Or.inr ⟨p, List.mem_cons_of_mem _ hp, htp, h⟩
    · simp only [if_neg hb]
      rcases ih base with h | ⟨p, hp, htp, h⟩
      · exact Or.inl h
      · exact Or.inr ⟨p, List.mem_cons_of_mem _ hp, htp, h⟩

theorem pendingAdjust_eq_base_of_le (badge_type : Int) (pending : List Attendee)
    (base : Int)
    (h : ∀ p ∈ pending, p.badge_type = badge_type → 1 + p.badge_num ≤ base) :
    pendingAdjust badge_type pending base = base := by
  rcases pendingAdjust_attained badge_type pending base with he | ⟨p, hp, htp, he⟩
  · exact he
  · exact le_antisymm (he ▸ h p hp htp) (pendingAdjust_ge_base _ _ _)

theorem nextBadgeNum_eq_pendingAdjust (cfg : Config) (existing pending : List Attendee)
    (badge_type old_badge_num : Int)
    (hbt : badge_type ∈ cfg.PREASSIGNED_BADGE_TYPES) :
    nextBadgeNum cfg existing pending badge_type old_badge_num =
      pendingAdjust badge_type pending
        (if (sameTypeBadges cfg existing badge_type).length ≠ 0 then
          if old_badge_num ≠ 0
              ∧ highestBadgeNum (sameTypeBadges cfg existing badge_type) = old_badge_num
          then highestBadgeNum (sameTypeBadges cfg existing badge_type)
          else highestBadgeNum (sameTypeBadges cfg existing badge_type) + 1
        else (cfg.BADGE_RANGES badge_type).1) := by
  unfold nextBadgeNum pendingAdjust
  rw [if_neg (by simpa using hbt)]

/-- Concrete configuration used by witnesses: badge type 1 is preassigned
with range 1..100. -/
def cfgW : Config :=
  { PREASSIGNED_BADGE_TYPES := [1]
    BADGE_RANGES := fun _ => (1, 100)
    MAX_BADGE := 100
    SHIFT_CUSTOM_BADGES := true
    ATTENDEE_BADGE := 2
    PAID_BY_GROUP := 3
    BAND_RIBBON := 4
    DEALER_ASST_RIBBON := 5
    NO_RIBBON := 0 }

/-- C1: for a preassigned badge type, `next_badge_num` returns a number that
(1) is at least one greater than the badge number of every pending session
attendee of that type, (2) is held by no existing in-range attendee of that
type except possibly the one holding `old_badge_num` itself, (3) is strictly
greater than the highest existing in-range badge number unless that highest
number is `old_badge_num` (nonzero), (4) in that exceptional case is
`old_badge_num` unchanged (the pending adjustment permitting), and (5) is the
lower bound of the range when no in-range attendee of that type exists (the
pending adjustment permitting) — so assigning it preserves uniqueness. -/
theorem next_badge_num_unique (cfg : Config) (existing pending : List Attendee)
    (badge_type old_badge_num : Int)
    (hbt : badge_type ∈ cfg.PREASSIGNED_BADGE_TYPES) :
    (∀ p ∈ pending, p.badge_type = badge_type →
        p.badge_num + 1 ≤ nextBadgeNum cfg existing pending badge_type old_badge_num)
    ∧ (∀ a ∈ sameTypeBadges cfg existing badge_type,
        a.badge_num = nextBadgeNum cfg existing pending badge_type old_badge_num →
        nextBadgeNum cfg existing pending badge_type old_badge_num = old_badge_num)
    ∧ (sameTypeBadges cfg existing badge_type ≠ [] →
        ¬(old_badge_num ≠ 0
            ∧ highestBadgeNum (sameTypeBadges cfg existing badge_type) = old_badge_num) →
        highestBadgeNum (sameTypeBadges cfg existing badge_type)
          < nextBadgeNum cfg existing pending badge_type old_badge_num)
    ∧ (sameTypeBadges cfg existing badge_type ≠ [] →
        old_badge_num ≠ 0 →
        highestBadgeNum (sameTypeBadges cfg existing badge_type) = old_badge_num →
        (∀ p ∈ pending, p.badge_type = badge_type → p.badge_num < old_badge_num) →
        nextBadgeNum cfg existing pending badge_type old_badge_num = old_badge_num)
    ∧ (sameTypeBadges cfg existing badge_type = [] →
        (∀ p ∈ pending, p.badge_type = badge_type →
            p.badge_num < (cfg.BADGE_RANGES badge_type).1) →
        nextBadgeNum cfg existing pending badge_type old_badge_num
          = (cfg.BADGE_RANGES badge_type).1) := by
  have hr := nextBadgeNum_eq_pendingAdjust cfg existing pending badge_type old_badge_num hbt
  set S := sameTypeBadges cfg existing badge_type with hS
  set M := highestBadgeNum S with hM
  refine ⟨?_, ?_, ?_, ?_, ?_⟩
  · intro p hp htp
    rw [hr]
    have := pendingAdjust_ge_pending badge_type pending
      (if S.length ≠ 0 then if old_badge_num ≠ 0 ∧ M = old_badge_num then M else M + 1
       else (cfg.BADGE_RANGES badge_type).1) p hp htp
    omega
  · intro a ha hae
    by_cases hni : S.length ≠ 0
    · by_cases hexc : old_badge_num ≠ 0 ∧ M = old_badge_num
      · have hbase : nextBadgeNum cfg existing pending badge_type old_badge_num
            = pendingAdjust badge_type pending M := by
          rw [hr, if_pos hni, if_pos hexc]
        have h1 : M ≤ nextBadgeNum cfg existing pending badge_type old_badge_num := by
          rw [hbase]; exact pendingAdjust_ge_base _ _ _
        have h2 : a.badge_num ≤ M := highestBadgeNum_ge S a ha
        omega
      · have hbase : nextBadgeNum cfg existing pending badge_type old_badge_num
            = pendingAdjust badge_type pending (M + 1) := by
          rw [hr, if_pos hni, if_neg hexc]
        have h1 : M + 1 ≤ nextBadgeNum cfg existing pending badge_type old_badge_num := by
          rw [hbase]; exact pendingAdjust_ge_base _ _ _
        have h2 : a.badge_num ≤ M := highestBadgeNum_ge S a ha
        omega
    · simp only [ne_eq, not_not, List.length_eq_zero] at hni
      rw [hni] at ha
      cases ha
  · intro hne hnexc
    have hni : S.length ≠ 0 := by
      simpa [List.length_eq_zero] using hne
    have hbase : nextBadgeNum cfg existing pending badge_type old_badge_num
        = pendingAdjust badge_type pending (M + 1) := by
      rw [hr, if_pos hni, if_neg hnexc]
    have h1 : M + 1 ≤ nextBadgeNum cfg existing pending badge_type old_badge_num := by
      rw [hbase]; exact pendingAdjust_ge_base _ _ _
    omega
  · intro hne hold hMold hplt
    have hni : S.length ≠ 0 := by
      simpa [List.length_eq_zero] using hne
    have hbase : nextBadgeNum cfg existing pending badge_type old_badge_num
        = pendingAdjust badge_type pending M := by
      rw [hr, if_pos hni, if_pos ⟨hold, hMold⟩]
    rw [hbase, hMold]
    exact pendingAdjust_eq_base_of_le _ _ _ fun p hp htp => by
      have := hplt p hp htp; omega
  · intro hnil hplt
    have hni : ¬ S.length ≠ 0 := by
      simp [hnil]
    have hbase : nextBadgeNum cfg existing pending badge_type old_badge_num
        = pendingAdjust badge_type pending (cfg.BADGE_RANGES badge_type).1 := by
      rw [hr, if_neg hni]
    rw [hbase]
    exact pendingAdjust_eq_base_of_le _ _ _ fun p hp htp => by
      have := hplt p hp htp; omega

/-- Witness for C1 at a concrete state: existing attendees with badge
numbers 3 and 5, one pending attendee with badge number 7, so the result
is 8. -/
theorem next_badge_num_unique_witness :
    (1 : Int) ∈ cfgW.PREASSIGNED_BADGE_TYPES
    ∧ ((∀ p ∈ [Attendee.mk 3 1 7 "" 3 0 0], p.badge_type = 1 →
          p.badge_num + 1 ≤ nextBadgeNum cfgW
            [Attendee.mk 1 1 5 "A" 0 0 0, Attendee.mk 2 1 3 "B" 0 0 0]
            [Attendee.mk 3 1 7 "" 3 0 0] 1 0)
      ∧ (∀ a ∈ sameTypeBadges cfgW
            [Attendee.mk 1 1 5 "A" 0 0 0, Attendee.mk 2 1 3 "B" 0 0 0] 1,
          a.badge_num = nextBadgeNum cfgW
            [Attendee.mk 1 1 5 "A" 0 0 0, Attendee.mk 2 1 3 "B" 0 0 0]
            [Attendee.mk 3 1 7 "" 3 0 0] 1 0 →
          nextBadgeNum cfgW
            [Attendee.mk 1 1 5 "A" 0 0 0, Attendee.mk 2 1 3 "B" 0 0 0]
            [Attendee.mk 3 1 7 "" 3 0 0] 1 0 = 0)
      ∧ (sameTypeBadges cfgW
            [Attendee.mk 1 1 5 "A" 0 0 0, Attendee.mk 2 1 3 "B" 0 0 0] 1 ≠ [] →
          ¬((0 : Int) ≠ 0
              ∧ highestBadgeNum (sameTypeBadges cfgW
                  [Attendee.mk 1 1 5 "A" 0 0 0, Attendee.mk 2 1 3 "B" 0 0 0] 1) = 0) →
          highestBadgeNum (sameTypeBadges cfgW
              [Attendee.mk 1 1 5 "A" 0 0 0, Attendee.mk 2 1 3 "B" 0 0 0] 1)
            < nextBadgeNum cfgW
                [Attendee.mk 1 1 5 "A" 0 0 0, Attendee.mk 2 1 3 "B" 0 0 0]
                [Attendee.mk 3 1 7 "" 3 0 0] 1 0)
      ∧ (sameTypeBadges cfgW
            [Attendee.mk 1 1 5 "A" 0 0 0, Attendee.mk 2 1 3 "B" 0 0 0] 1 ≠ [] →
          (0 : Int) ≠ 0 →
          highestBadgeNum (sameTypeBadges cfgW
              [Attendee.mk 1 1 5 "A" 0 0 0, Attendee.mk 2 1 3 "B" 0 0 0] 1) = 0 →
          (∀ p ∈ [Attendee.mk 3 1 7 "" 3 0 0], p.badge_type = 1 → p.badge_num < 0) →
          nextBadgeNum cfgW
            [Attendee.mk 1 1 5 "A" 0 0 0, Attendee.mk 2 1 3 "B" 0 0 0]
            [Attendee.mk 3 1 7 "" 3 0 0] 1 0 = 0)
      ∧ (sameTypeBadges cfgW
            [Attendee.mk 1 1 5 "A" 0 0 0, Attendee.mk 2 1 3 "B" 0 0 0] 1 = [] →
          (∀ p ∈ [Attendee.mk 3 1 7 "" 3 0 0], p.badge_type = 1 →
              p.badge_num < (cfgW.BADGE_RANGES 1).1) →
          nextBadgeNum cfgW
            [Attendee.mk 1 1 5 "A" 0 0 0, Attendee.mk 2 1 3 "B" 0 0 0]
            [Attendee.mk 3 1 7 "" 3 0 0] 1 0 = (cfgW.BADGE_RANGES 1).1)) :=
  ⟨by decide,
   next_badge_num_unique cfgW
     [Attendee.mk 1 1 5 "A" 0 0 0, Attendee.mk 2 1 3 "B" 0 0 0]
     [Attendee.mk 3 1 7 "" 3 0 0] 1 0 (by decide)⟩

/-- C9: for a badge type that is not preassigned, `next_badge_num` returns 0
whatever the existing and pending attendees and the old badge number are. -/
theorem next_badge_num_non_preassigned (cfg : Config)
    (existing pending : List Attendee) (badge_type old_badge_num : Int)
    (hbt : badge_type ∉ cfg.PREASSIGNED_BADGE_TYPES) :
    nextBadgeNum cfg existing pending badge_type old_badge_num = 0 := by
  unfold nextBadgeNum
  rw [if_pos hbt]

/-- Witness for C9: badge type 99 is not preassigned in `cfgW`, so the result
is 0 even with attendees present. -/
theorem next_badge_num_non_preassigned_witness :
    (99 : Int) ∉ cfgW.PREASSIGNED_BADGE_TYPES
    ∧ nextBadgeNum cfgW [Attendee.mk 1 99 5 "A" 0 0 0]
        [Attendee.mk 3 99 7 "" 3 0 0] 99 4 = 0 :=
  ⟨by decide,
   next_badge_num_non_preassigned cfgW [Attendee.mk 1 99 5 "A" 0 0 0]
     [Attendee.mk 3 99 7 "" 3 0 0] 99 4 (by decide)⟩

/-- The columns of a `Group` row read by `assign_badges` and the properties
it uses (`floating`, `badges`, `new_ribbon`, `is_dealer`).  `registered` is
`None` until the row is first flushed (`server_default=utcnow()`). -/
structure Group where
  attendees : List Attendee
  tables : Int
  amount_paid : Int
  cost : Int
  registered : Option Int
deriving DecidableEq, Repr

/-- `Group.is_dealer`: `bool(self.tables and (not self.registered or
self.amount_paid or self.cost))`. -/
def isDealer (g : Group) : Bool :=
  decide (g.tables ≠ 0)
    && (decide (g.registered = none) || decide (g.amount_paid ≠ 0) || decide (g.cost ≠ 0))

/-- `Attendee.is_unassigned and attendee.paid == c.PAID_BY_GROUP`, the
predicate of `Group.floating` (`is_unassigned` is `not self.first_name`). -/
def isFloating (cfg : Config) (a : Attendee) : Bool :=
  a.first_name == "" && decide (a.paid = cfg.PAID_BY_GROUP)

/-- `Group.floating`: the unassigned paid-by-group attendees of the group. -/
def floating (cfg : Config) (g : Group) : List Attendee :=
  g.attendees.filter (isFloating cfg)

/-- `Group.new_ribbon`: the band ribbon if any attendee has it, else the
dealer-assistant ribbon for dealer groups, else no ribbon. -/
def newRibbon (cfg : Config) (g : Group) : Int :=
  if g.attendees.any (fun a => a.ribbon == cfg.BAND_RIBBON) then cfg.BAND_RIBBON
  else if isDealer g then cfg.DEALER_ASST_RIBBON else cfg.NO_RIBBON

/-- `new_badge_type or c.ATTENDEE_BADGE` in `assign_badges` (`None` and `0`
are falsy). -/
def resolveBadgeType (cfg : Config) : Option Int → Int
  | none => cfg.ATTENDEE_BADGE
  | some t => if t = 0 then cfg.ATTENDEE_BADGE else t

/-- `Attendee(badge_type=new_badge_type, ribbon=group.new_ribbon,
paid=c.PAID_BY_GROUP)`: the remaining columns take their defaults
(`badge_num=0`, empty `first_name`). -/
def newGroupAttendee (cfg : Config) (bt ribbon : Int) (i : Nat) : Attendee :=
  ⟨i, bt, 0, "", cfg.PAID_BY_GROUP, ribbon, 0⟩

/-- The `for i in range(diff): group.attendees.append(...)` loop of
`assign_badges`; `group.new_ribbon` is re-evaluated on each iteration. -/
def appendNewAttendees (cfg : Config) (bt : Int) : Nat → Nat → Group → Group
  | 0, _, g => g
  | Nat.succ k, i, g =>
      appendNewAttendees cfg bt k (i + 1)
        { g with attendees := g.attendees ++ [newGroupAttendee cfg bt (newRibbon cfg g) i] }

/-- `sorted(key=lambda a: a.registered, reverse=True)`. -/
def regDesc (a b : Attendee) : Prop := b.registered ≤ a.registered

instance : DecidableRel regDesc :=
  fun a b => inferInstanceAs (Decidable (b.registered ≤ a.registered))

instance : IsTotal Attendee regDesc :=
  ⟨fun a b => (le_total b.registered a.registered).imp id id⟩

instance : IsTrans Attendee regDesc :=
  ⟨fun _ _ _ h1 h2 => le_trans h2 h1⟩

/-- `group.attendees.remove(attendee)`: removes the first list element equal
to the attendee (`MagModel.__eq__` compares primary keys). -/
def removeAttendee (l : List Attendee) (x : Attendee) : List Attendee :=
  l.eraseP (fun a => a.id == x.id)

/-- The deletion loop `for attendee in sorted_unassigned[:abs(diff)]:
self.delete_from_group(attendee, group)`. -/
def deleteAllFromGroup (l : List Attendee) (xs : List Attendee) : List Attendee :=
  xs.foldl removeAttendee l

/-- The error string returned by `assign_badges` when the reduction would
exceed the number of floating attendees. -/
def badgeReduceError : String :=
  "You cannot reduce the number of badges for a group to below the number of assigned badges"

/-- `Session.SessionMixin.assign_badges(group, new_badge_count,
new_badge_type)`.  `newId` seeds the fresh primary keys of appended
attendees.  Returns the error message (if any) and the resulting group. -/
def assignBadges (cfg : Config) (g : Group) (new_badge_count : Int)
    (new_badge_type : Option Int) (newId : Nat) : Option String × Group :=
  let bt := resolveBadgeType cfg new_badge_type
  let diff := new_badge_count - (g.attendees.length : Int)
  let sorted_unassigned := List.insertionSort regDesc (floating cfg g)
  if 0 < diff then
    (none, appendNewAttendees cfg bt diff.toNat newId g)
  else if diff < 0 then
    if (floating cfg g).length < diff.natAbs then
      (some badgeReduceError, g)
    else
      (none, { g with attendees := deleteAllFromGroup g.attendees (sorted_unassigned.take diff.natAbs) })
  else (none, g)

/-- The primary keys of a list of attendees. -/
def attendeeIds (l : List Attendee) : List Nat := l.map Attendee.id

theorem attendeeIds_filter_nodup (l : List Attendee) (p : Attendee → Bool)
    (h : (attendeeIds l).Nodup) : (attendeeIds (l.filter p)).Nodup :=
  ((l.filter_sublist).map Attendee.id).nodup h

theorem attendee_id_inj (l : List Attendee) (h : (attendeeIds l).Nodup)
    (x y : Attendee) (hx : x ∈ l) (hy : y ∈ l) (hid : x.id = y.id) : x = y :=
  List.inj_on_of_nodup_map h hx hy hid

theorem filter_id_ne_of_not_mem (l : List Attendee) (x : Attendee)
    (h : x.id ∉ attendeeIds l) : l.filter (fun a => a.id != x.id) = l := by
  rw [List.filter_eq_self]
  intro a ha
  simp only [bne_iff_ne, ne_eq]
  intro he
  exact h (he ▸ List.mem_map_of_mem Attendee.id ha)

theorem removeAttendee_eq_filter (l : List Attendee) (x : Attendee)
    (h : (attendeeIds l).Nodup) :
    removeAttendee l x = l.filter (fun a => a.id != x.id) := by
  induction l with
  | nil => rfl
  | cons b t ih =>
    have hnd : (attendeeIds t).Nodup := (List.nodup_cons.mp h).2
    by_cases hb : b.id = x.id
    · rw [removeAttendee, List.eraseP_cons_of_pos (by simpa using hb)]
      have hfb : (fun a => a.id != x.id) b = false := by simpa using hb
      rw [List.filter_cons_of_neg (by simpa using hb)]
      rw [filter_id_ne_of_not_mem t x (hb ▸ (List.nodup_cons.mp h).1)]
    · rw [removeAttendee, List.eraseP_cons_of_neg (by simpa using hb)]
      rw [List.filter_cons_of_pos (by simpa using hb)]
      rw [← removeAttendee, ih hnd]

theorem deleteAllFromGroup_eq_filter (xs : List Attendee) (l : List Attendee)
    (h : (attendeeIds l).Nodup) :
    deleteAllFromGroup l xs
      = l.filter (fun a => xs.all (fun x => a.id != x.id)) := by
  induction xs generalizing l with
  | nil =>
    simp only [deleteAllFromGroup, List.foldl_nil, List.all_nil]
    exact (List.filter_true l).symm
  | cons x xs ih =>
    have h1 : deleteAllFromGroup l (x :: xs) = deleteAllFromGroup (removeAttendee l x) xs := rfl
    rw [h1, removeAttendee_eq_filter l x h,
      ih _ (attendeeIds_filter_nodup l _ h), List.filter_filter]
    refine List.filter_congr fun a _ => ?_
    simp only [List.all_cons, Bool.and_comm]

theorem deleteAllFromGroup_length (xs : List Attendee) (l : List Attendee)
    (hl : (attendeeIds l).Nodup) (hxs : (attendeeIds xs).Nodup)
    (hmem : ∀ x ∈ xs, x.id ∈ attendeeIds l) :
    (deleteAllFromGroup l xs).length = l.length - xs.length := by
  induction xs generalizing l with
  | nil => rfl
  | cons x xs ih =>
    have h1 : deleteAllFromGroup l (x :: xs) = deleteAllFromGroup (removeAttendee l x) xs := rfl
    have hx : x.id ∈ attendeeIds l := hmem x (List.mem_cons_self _ _)
    obtain ⟨a, ha, hax⟩ := List.mem_map.mp hx
    have hlen : (removeAttendee l x).length + 1 = l.length :=
      List.length_eraseP_add_one ha (by simpa using hax)
    have hxid : x.id ∉ attendeeIds xs := (List.nodup_cons.mp hxs).1
    have hrec := ih (removeAttendee l x)
      (by rw [removeAttendee_eq_filter l x hl]; exact attendeeIds_filter_nodup l _ hl)
      ((List.nodup_cons.mp hxs).2)
      (by
        intro y hy
        obtain ⟨b, hb, hby⟩ := List.mem_map.mp (hmem y (List.mem_cons_of_mem _ hy))
        rw [removeAttendee_eq_filter l x hl]
        refine List.mem_map.mpr ⟨b, List.mem_filter.mpr ⟨hb, ?_⟩, hby⟩
        simp only [bne_iff_ne, ne_eq, hby]
        intro he
        exact hxid (he ▸ List.mem_map_of_mem Attendee.id hy))
    rw [h1, hrec]
    simp only [List.length_cons]
    omega

theorem newRibbon_append_new (cfg : Config) (g : Group) (bt : Int) (i : Nat)
    (hD : cfg.BAND_RIBBON ≠ cfg.DEALER_ASST_RIBBON)
    (hN : cfg.BAND_RIBBON ≠ cfg.NO_RIBBON) :
    newRibbon cfg
        { g with attendees := g.attendees ++ [newGroupAttendee cfg bt (newRibbon cfg g) i] }
      = newRibbon cfg g := by
  by_cases hAny : g.attendees.any (fun a => a.ribbon == cfg.BAND_RIBBON)
  · rw [newRibbon, if_pos (by simp [List.any_append, hAny]), newRibbon, if_pos hAny]
  · have hval : newRibbon cfg g
        = if isDealer g then cfg.DEALER_ASST_RIBBON else cfg.NO_RIBBON := by
      rw [newRibbon, if_neg hAny]
    have hnew : ((newGroupAttendee cfg bt (newRibbon cfg g) i).ribbon
        == cfg.BAND_RIBBON) = false := by
      simp only [newGroupAttendee, hval]
      by_cases hd : isDealer g
      · simp [hd, hD.symm]
      · simp [hd, hN.symm]
    have hAny2 : (g.attendees
          ++ [newGroupAttendee cfg bt (newRibbon cfg g) i]).any
            (fun a => a.ribbon == cfg.BAND_RIBBON) = false := by
      simp only [List.any_append, Bool.or_eq_false_iff]
      exact ⟨by simpa using hAny, by simpa using hnew⟩
    rw [newRibbon]
    simp only []
    rw [if_neg (by simp [hAny2]), hval]
    rfl

theorem appendNewAttendees_eq (cfg : Config) (bt : Int)
    (hD : cfg.BAND_RIBBON ≠ cfg.DEALER_ASST_RIBBON)
    (hN : cfg.BAND_RIBBON ≠ cfg.NO_RIBBON) :
    ∀ (n : Nat) (i : Nat) (g : Group),
      appendNewAttendees cfg bt n i g
        = { g with attendees := (g.attendees
            ++ (List.range n).map
                (fun j => newGroupAttendee cfg bt (newRibbon cfg g) (i + j))) }
  | 0, i, g => by simp [appendNewAttendees]
  | Nat.succ k, i, g => by
    rw [appendNewAttendees]
    rw [appendNewAttendees_eq cfg bt hD hN k (i + 1) _]
    rw [newRibbon_append_new cfg g bt i hD hN]
    simp only [newGroupAttendee]
    rw [List.range_succ_eq_map, List.map_cons, List.map_map]
    simp only [List.append_assoc, List.singleton_append, Nat.add_zero]
    congr 1
    refine congrArg _ (congrArg _ (List.map_congr_left fun j _ => ?_))
    simp only [Function.comp_apply]
    congr 1
    omega

/-- The slice `sorted_unassigned[:abs(diff)]` of `assign_badges`. -/
def takenFloating (cfg : Config) (g : Group) (k : Nat) : List Attendee :=
  (List.insertionSort regDesc (floating cfg g)).take k

theorem takenFloating_mem_floating (cfg : Config) (g : Group) (k : Nat)
    (x : Attendee) (hx : x ∈ takenFloating cfg g k) : x ∈ floating cfg g :=
  ((List.perm_insertionSort regDesc (floating cfg g)).mem_iff).mp
    (List.mem_of_mem_take hx)

theorem takenFloating_nodup (cfg : Config) (g : Group) (k : Nat)
    (hnd : (attendeeIds g.attendees).Nodup) :
    (attendeeIds (takenFloating cfg g k)).Nodup := by
  have h1 : (attendeeIds (floating cfg g)).Nodup :=
    attendeeIds_filter_nodup g.attendees _ hnd
  have h2 : (attendeeIds (List.insertionSort regDesc (floating cfg g))).Nodup :=
    (((List.perm_insertionSort regDesc (floating cfg g)).map Attendee.id).nodup_iff).mpr h1
  exact ((List.take_sublist k _).map Attendee.id).nodup h2

theorem takenFloating_ids_mem (cfg : Config) (g : Group) (k : Nat)
    (x : Attendee) (hx : x ∈ takenFloating cfg g k) :
    x.id ∈ attendeeIds g.attendees :=
  List.mem_map_of_mem Attendee.id
    (List.mem_filter.mp (takenFloating_mem_floating cfg g k x hx)).1

theorem takenFloating_length (cfg : Config) (g : Group) (k : Nat)
    (hk : k ≤ (floating cfg g).length) : (takenFloating cfg g k).length = k := by
  rw [takenFloating, List.length_take, List.length_insertionSort]
  omega

theorem deleteTaken_length (cfg : Config) (g : Group) (k : Nat)
    (hnd : (attendeeIds g.attendees).Nodup) (hk : k ≤ (floating cfg g).length) :
    (deleteAllFromGroup g.attendees (takenFloating cfg g k)).length
      = g.attendees.length - k := by
  rw [deleteAllFromGroup_length (takenFloating cfg g k) g.attendees hnd
    (takenFloating_nodup cfg g k hnd) (takenFloating_ids_mem cfg g k),
    takenFloating_length cfg g k hk]

theorem assignBadges_eq_of_pos (cfg : Config) (g : Group) (n : Int)
    (bt : Option Int) (newId : Nat) (h : 0 < n - (g.attendees.length : Int)) :
    assignBadges cfg g n bt newId
      = (none, appendNewAttendees cfg (resolveBadgeType cfg bt)
          (n - (g.attendees.length : Int)).toNat newId g) := by
  simp only [assignBadges]
  rw [if_pos h]

theorem assignBadges_eq_of_err (cfg : Config) (g : Group) (n : Int)
    (bt : Option Int) (newId : Nat) (h1 : n - (g.attendees.length : Int) < 0)
    (h2 : (floating cfg g).length < (n - (g.attendees.length : Int)).natAbs) :
    assignBadges cfg g n bt newId = (some badgeReduceError, g) := by
  simp only [assignBadges]
  rw [if_neg (by omega), if_pos h1, if_pos h2]

theorem assignBadges_eq_of_delete (cfg : Config) (g : Group) (n : Int)
    (bt : Option Int) (newId : Nat) (h1 : n - (g.attendees.length : Int) < 0)
    (h2 : ¬ (floating cfg g).length < (n - (g.attendees.length : Int)).natAbs) :
    assignBadges cfg g n bt newId
      = (none, { g with attendees := (deleteAllFromGroup g.attendees
          (takenFloating cfg g (n - (g.attendees.length : Int)).natAbs)) }) := by
  simp only [assignBadges, takenFloating]
  rw [if_neg (by omega), if_pos h1, if_neg h2]

theorem assignBadges_eq_of_same (cfg : Config) (g : Group) (n : Int)
    (bt : Option Int) (newId : Nat) (h : n - (g.attendees.length : Int) = 0) :
    assignBadges cfg g n bt newId = (none, g) := by
  simp only [assignBadges]
  rw [if_neg (by omega), if_neg (by omega)]

/-- C2: `assign_badges(group, n)` that returns no error leaves the group
with exactly `n` attendees: appending `n - badges` new paid-by-group
attendees carrying the requested badge type and the group\u2019s `new_ribbon`
when `n` exceeds the current count, deleting the most recently registered
floating attendees when `n` is lower, and returning an error string (and
deleting nobody) when the reduction would exceed the floating count.
Hypotheses: attendee primary keys are distinct, and the ribbon constants
are distinct enumeration values. -/
theorem assign_badges_matches_count (cfg : Config) (g : Group) (n : Int)
    (bt : Option Int) (newId : Nat)
    (hnd : (attendeeIds g.attendees).Nodup)
    (hD : cfg.BAND_RIBBON ≠ cfg.DEALER_ASST_RIBBON)
    (hN : cfg.BAND_RIBBON ≠ cfg.NO_RIBBON) :
    ((assignBadges cfg g n bt newId).1 = none →
      (((assignBadges cfg g n bt newId).2.attendees.length : Int) = n))
    ∧ ((g.attendees.length : Int) < n →
      (assignBadges cfg g n bt newId).1 = none
      ∧ (assignBadges cfg g n bt newId).2.attendees
        = g.attendees ++ (List.range (n - (g.attendees.length : Int)).toNat).map
            (fun j => newGroupAttendee cfg (resolveBadgeType cfg bt)
              (newRibbon cfg g) (newId + j)))
    ∧ (n < (g.attendees.length : Int) →
      ((floating cfg g).length : Int) < (g.attendees.length : Int) - n →
      (assignBadges cfg g n bt newId).1 = some badgeReduceError
      ∧ (assignBadges cfg g n bt newId).2 = g)
    ∧ (n < (g.attendees.length : Int) →
      (g.attendees.length : Int) - n ≤ ((floating cfg g).length : Int) →
      (assignBadges cfg g n bt newId).1 = none
      ∧ (∀ x ∈ (assignBadges cfg g n bt newId).2.attendees, x ∈ g.attendees)
      ∧ (∀ x ∈ g.attendees, x ∉ (assignBadges cfg g n bt newId).2.attendees →
          isFloating cfg x = true)
      ∧ (∀ x ∈ g.attendees, x ∉ (assignBadges cfg g n bt newId).2.attendees →
          ∀ y ∈ (assignBadges cfg g n bt newId).2.attendees,
            isFloating cfg y = true → y.registered ≤ x.registered)) := by
  refine ⟨?_, ?_, ?_, ?_⟩
  · intro herr
    rcases lt_trichotomy (n - (g.attendees.length : Int)) 0 with hdiff | hdiff | hdiff
    · by_cases hfl : (floating cfg g).length < (n - (g.attendees.length : Int)).natAbs
      · rw [assignBadges_eq_of_err cfg g n bt newId hdiff hfl] at herr
        cases herr
      · rw [assignBadges_eq_of_delete cfg g n bt newId hdiff hfl]
        have hk : (n - (g.attendees.length : Int)).natAbs ≤ (floating cfg g).length := by
          omega
        have hlen := deleteTaken_length cfg g
          (n - (g.attendees.length : Int)).natAbs hnd hk
        have hfle : (floating cfg g).length ≤ g.attendees.length :=
          List.length_filter_le _ _
        simp only []
        omega
    · rw [assignBadges_eq_of_same cfg g n bt newId hdiff]
      simp only []
      omega
    · rw [assignBadges_eq_of_pos cfg g n bt newId hdiff]
      rw [appendNewAttendees_eq cfg (resolveBadgeType cfg bt) hD hN]
      simp only [List.length_append, List.length_map, List.length_range]
      omega
  · intro hlt
    have hdiff : 0 < n - (g.attendees.length : Int) := by omega
    rw [assignBadges_eq_of_pos cfg g n bt newId hdiff]
    exact ⟨rfl, by rw [appendNewAttendees_eq cfg (resolveBadgeType cfg bt) hD hN]⟩
  · intro hlt hfl
    have hdiff : n - (g.attendees.length : Int) < 0 := by omega
    have hfl2 : (floating cfg g).length < (n - (g.attendees.length : Int)).natAbs := by
      omega
    rw [assignBadges_eq_of_err cfg g n bt newId hdiff hfl2]
    exact ⟨rfl, rfl⟩
  · intro hlt hfl
    have hdiff : n - (g.attendees.length : Int) < 0 := by omega
    have hfl2 : ¬ (floating cfg g).length < (n - (g.attendees.length : Int)).natAbs := by
      omega
    rw [assignBadges_eq_of_delete cfg g n bt newId hdiff hfl2]
    set k := (n - (g.attendees.length : Int)).natAbs with hkdef
    set xs := takenFloating cfg g k with hxs
    have hdel : deleteAllFromGroup g.attendees xs
        = g.attendees.filter (fun a => xs.all (fun x => a.id != x.id)) :=
      deleteAllFromGroup_eq_filter xs g.attendees hnd
    simp only [hdel]
    have hremoved : ∀ x ∈ g.attendees,
        x ∉ g.attendees.filter (fun a => xs.all (fun x => a.id != x.id)) → x ∈ xs := by
      intro x hx hxnot
      have hnall : ¬ (xs.all (fun r => x.id != r.id) = true) := by
        intro hall
        exact hxnot (List.mem_filter.mpr ⟨hx, hall⟩)
      simp only [List.all_eq_true, bne_iff_ne, ne_eq, not_forall] at hnall
      obtain ⟨r, hr, hrid⟩ := hnall
      have hrid2 : x.id = r.id := by
        by_contra hc
        exact hrid fun he => hc he
      have hrg : r ∈ g.attendees :=
        (List.mem_filter.mp (takenFloating_mem_floating cfg g k r hr)).1
      have : x = r := attendee_id_inj g.attendees hnd x r hx hrg hrid2
      exact this ▸ hr
    refine ⟨by trivial, ?_, ?_, ?_⟩
    · intro x hx
      exact (List.mem_filter.mp hx).1
    · intro x hx hxnot
      have hxxs := hremoved x hx hxnot
      exact (List.mem_filter.mp (takenFloating_mem_floating cfg g k x hxxs)).2
    · intro x hx hxnot y hy hyfl
      have hxxs := hremoved x hx hxnot
      have hyg : y ∈ g.attendees := (List.mem_filter.mp hy).1
      have hyfl2 : y ∈ floating cfg g := List.mem_filter.mpr ⟨hyg, hyfl⟩
      have hysrt : y ∈ List.insertionSort regDesc (floating cfg g) :=
        ((List.perm_insertionSort regDesc (floating cfg g)).mem_iff).mpr hyfl2
      have hynotxs : y ∉ xs := by
        intro hyxs
        have hall := (List.mem_filter.mp hy).2
        have := (List.all_eq_true.mp hall) y hyxs
        simp at this
      have hydrop : y ∈ (List.insertionSort regDesc (floating cfg g)).drop k := by
        have := (List.take_append_drop k
          (List.insertionSort regDesc (floating cfg g))) ▸ hysrt
        rcases List.mem_append.mp this with h | h
        · exact absurd h hynotxs
        · exact h
      have hsorted : List.Pairwise regDesc
          (List.insertionSort regDesc (floating cfg g)) :=
        List.sorted_insertionSort regDesc (floating cfg g)
      rw [← List.take_append_drop k
        (List.insertionSort regDesc (floating cfg g))] at hsorted
      exact (List.pairwise_append.mp hsorted).2.2 x hxxs y hydrop

/-- Concrete group used by the C2 witness: three attendees, two of them
floating. -/
def groupW : Group :=
  ⟨[Attendee.mk 1 2 0 "L" 0 0 1, Attendee.mk 2 2 0 "" 3 0 2,
    Attendee.mk 3 2 0 "" 3 0 5], 0, 0, 0, some 0⟩

/-- Witness for C2 at a concrete group: a reduction to two badges succeeds
and leaves exactly two attendees. -/
theorem assign_badges_matches_count_witness :
    (attendeeIds groupW.attendees).Nodup
    ∧ cfgW.BAND_RIBBON ≠ cfgW.DEALER_ASST_RIBBON
    ∧ cfgW.BAND_RIBBON ≠ cfgW.NO_RIBBON
    ∧ ((assignBadges cfgW groupW 2 none 10).1 = none →
        ((assignBadges cfgW groupW 2 none 10).2.attendees.length : Int) = 2) := by
  refine ⟨by decide, by decide, by decide, ?_⟩
  exact (assign_badges_matches_count cfgW groupW 2 none 10 (by decide)
    (by decide) (by decide)).1

/-- Keyword-argument dictionary for the `**direction` parameter of
`shift_badges`, as an association list. -/
def hasKey (d : List (String × Bool)) (k : String) : Bool :=
  d.any (fun p => p.1 == k)

/-- `direction.get(k, dflt)`. -/
def getKey (d : List (String × Bool)) (k : String) (dflt : Bool) : Bool :=
  match d.find? (fun p => p.1 == k) with
  | some p => p.2
  | none => dflt

/-- `down = (not direction[\u2018up\u2019]) if \u2018up\u2019 in direction else
direction.get(\u2018down\u2019, True)`. -/
def downFlag (direction : List (String × Bool)) : Bool :=
  if hasKey direction "up" then ! (getKey direction "up" false)
  else getKey direction "down" true

/-- `shift = -1 if down else 1`. -/
def shiftAmount (direction : List (String × Bool)) : Int :=
  if downFlag direction then -1 else 1

/-- `until or c.MAX_BADGE` (`None` and `0` are falsy). -/
def resolveUntil (cfg : Config) : Option Int → Int
  | none => cfg.MAX_BADGE
  | some v => if v = 0 then cfg.MAX_BADGE else v

/-- The row filter of `shift_badges`: same badge type, badge number in
`[badge_num, until]` and nonzero. -/
def shiftTargets (badge_type badge_num u : Int) (a : Attendee) : Prop :=
  a.badge_type = badge_type ∧ badge_num ≤ a.badge_num ∧ a.badge_num ≤ u
    ∧ a.badge_num ≠ 0

instance (badge_type badge_num u : Int) (a : Attendee) :
    Decidable (shiftTargets badge_type badge_num u a) :=
  inferInstanceAs (Decidable (_ ∧ _ ∧ _ ∧ _))

/-- `Session.SessionMixin.shift_badges(badge_type, badge_num, until=...,
**direction)`: failed assertions are modelled as errors. -/
def shiftBadges (cfg : Config) (attendees : List Attendee)
    (badge_type badge_num : Int) (untl : Option Int)
    (direction : List (String × Bool)) : Except String (List Attendee) :=
  let u := resolveUntil cfg untl
  if ¬ cfg.SHIFT_CUSTOM_BADGES then Except.error "SHIFT_CUSTOM_BADGES"
  else if direction.any (fun p => ¬ (p.1 = "up" ∨ p.1 = "down")) then
    Except.error "unknown parameters"
  else if ¬ direction.length < 2 then
    Except.error "you cannot specify both up and down parameters"
  else
    Except.ok (attendees.map fun a =>
      if shiftTargets badge_type badge_num u a
      then { a with badge_num := a.badge_num + shiftAmount direction } else a)

/-- C10: `shift_badges` modifies exactly the attendees of the given badge
type whose badge number is nonzero and lies in `[badge_num, until]`
(`until` defaulting to `c.MAX_BADGE`), adding the shift amount (-1 for the
default down direction, +1 for up) to their badge number and leaving every
other attendee and every other column untouched; passing both `up` and
`down`, or an unknown direction keyword, fails an assertion. -/
theorem shift_badges_frame (cfg : Config) (attendees : List Attendee)
    (badge_type badge_num : Int) (untl : Option Int)
    (direction : List (String × Bool)) (hS : cfg.SHIFT_CUSTOM_BADGES = true) :
    (hasKey direction "up" = true → hasKey direction "down" = true →
      ∃ e, shiftBadges cfg attendees badge_type badge_num untl direction
        = Except.error e)
    ∧ ((∃ k ∈ direction, ¬ (k.1 = "up" ∨ k.1 = "down")) →
      ∃ e, shiftBadges cfg attendees badge_type badge_num untl direction
        = Except.error e)
    ∧ ((∀ k ∈ direction, k.1 = "up" ∨ k.1 = "down") → direction.length < 2 →
      ∃ res, shiftBadges cfg attendees badge_type badge_num untl direction
          = Except.ok res
        ∧ res.length = attendees.length
        ∧ (∀ (i : Nat) (a : Attendee), attendees[i]? = some a →
            (shiftTargets badge_type badge_num (resolveUntil cfg untl) a →
              res[i]? = some { a with badge_num := a.badge_num + shiftAmount direction })
            ∧ (¬ shiftTargets badge_type badge_num (resolveUntil cfg untl) a →
              res[i]? = some a)))
    ∧ shiftAmount [] = -1
    ∧ shiftAmount [("down", true)] = -1
    ∧ shiftAmount [("up", true)] = 1 := by
  refine ⟨?_, ?_, ?_, rfl, rfl, rfl⟩
  · intro hup hdown
    by_cases hunk : direction.any (fun p => ¬ (p.1 = "up" ∨ p.1 = "down"))
    · exact ⟨"unknown parameters", by
        rw [shiftBadges]
        rw [if_neg (by simp [hS]), if_pos hunk]⟩
    · have hlen : ¬ direction.length < 2 := by
        intro hlt
        match direction, hlt with
        | [], _ => simp [hasKey] at hup
        | [p], _ =>
          simp only [hasKey, List.any_cons, List.any_nil, Bool.or_false,
            beq_iff_eq] at hup hdown
          rw [hup] at hdown
          exact (by decide : ("up" : String) ≠ "down") hdown
      exact ⟨"you cannot specify both up and down parameters", by
        rw [shiftBadges]
        rw [if_neg (by simp [hS]), if_neg hunk, if_pos hlen]⟩
  · intro hunk
    refine ⟨"unknown parameters", ?_⟩
    rw [shiftBadges]
    rw [if_neg (by simp [hS]), if_pos ?_]
    obtain ⟨k, hk, hkbad⟩ := hunk
    exact List.any_eq_true.mpr ⟨k, hk, by simpa using hkbad⟩
  · intro hok hlen
    have hunk : (direction.any (fun p => ¬ (p.1 = "up" ∨ p.1 = "down"))) = false := by
      rw [List.any_eq_false]
      intro p hp
      exact fun hc => (of_decide_eq_true hc) (hok p hp)
    refine ⟨_, by
      rw [shiftBadges]
      rw [if_neg (by simp [hS]), if_neg (by rw [hunk]; exact Bool.false_ne_true),
        if_neg (not_not_intro hlen)], ?_, ?_⟩
    · exact List.length_map _ _
    · intro i a ha
      constructor
      · intro hmatch
        rw [List.getElem?_map, ha]
        simp only [Option.map_some']
        rw [if_pos hmatch]
      · intro hmatch
        rw [List.getElem?_map, ha]
        simp only [Option.map_some']
        rw [if_neg hmatch]

/-- Witness for C10: a concrete down-shift of badge type 1 starting at
badge number 3. -/
theorem shift_badges_frame_witness :
    cfgW.SHIFT_CUSTOM_BADGES = true
    ∧ ((hasKey [] "up" = true → hasKey [] "down" = true →
        ∃ e, shiftBadges cfgW [Attendee.mk 1 1 5 "A" 0 0 0] 1 3 none []
          = Except.error e)
    ∧ ((∃ k ∈ ([] : List (String × Bool)), ¬ (k.1 = "up" ∨ k.1 = "down")) →
        ∃ e, shiftBadges cfgW [Attendee.mk 1 1 5 "A" 0 0 0] 1 3 none []
          = Except.error e)
    ∧ ((∀ k ∈ ([] : List (String × Bool)), k.1 = "up" ∨ k.1 = "down") →
        ([] : List (String × Bool)).length < 2 →
        ∃ res, shiftBadges cfgW [Attendee.mk 1 1 5 "A" 0 0 0] 1 3 none []
            = Except.ok res
          ∧ res.length = [Attendee.mk 1 1 5 "A" 0 0 0].length
          ∧ (∀ (i : Nat) (a : Attendee), [Attendee.mk 1 1 5 "A" 0 0 0][i]? = some a →
              (shiftTargets 1 3 (resolveUntil cfgW none) a →
                res[i]? = some { a with badge_num := a.badge_num + shiftAmount [] })
              ∧ (¬ shiftTargets 1 3 (resolveUntil cfgW none) a →
                res[i]? = some a)))
    ∧ shiftAmount [] = -1
    ∧ shiftAmount [("down", true)] = -1
    ∧ shiftAmount [("up", true)] = 1) :=
  ⟨by decide, shift_badges_frame cfgW [Attendee.mk 1 1 5 "A" 0 0 0] 1 3 none []
    (by decide)⟩

/-! For the `MultiChoice` column type the stored unicode text is modelled as
a list of characters, since the round-trip property is about the
comma-separated structure of the string. -/

/-- The decimal digits of a natural number, most significant first
(`str(n)` for a nonnegative `n`). -/
def natChars (n : Nat) : List Char :=
  if h : n < 10 then [Nat.digitChar n]
  else natChars (n / 10) ++ [Nat.digitChar (n % 10)]
decreasing_by exact Nat.div_lt_self (by omega) (by omega)

/-- `str(n)` for an integer. -/
def intChars (n : Int) : List Char :=
  if n < 0 then '-' :: natChars (-n).toNat else natChars n.toNat

/-- The numeric value of a decimal digit character, or `none`. -/
def digitVal (c : Char) : Option Nat :=
  if '0' ≤ c ∧ c ≤ '9' then some (c.toNat - Char.toNat '0') else none

/-- Decimal evaluation of a digit string. -/
def parseNatChars (l : List Char) : Option Nat :=
  l.foldl
    (fun acc c =>
      match acc, digitVal c with
      | some a, some d => some (a * 10 + d)
      | _, _ => none)
    (some 0)

/-- `int(s)`: optional minus sign followed by at least one decimal digit;
`none` models the `ValueError` raised on anything else. -/
def parseIntChars (l : List Char) : Option Int :=
  match l with
  | [] => none
  | c :: rest =>
      if c = '-' then
        if rest = [] then none
        else (parseNatChars rest).map (fun a => -Int.ofNat a)
      else (parseNatChars (c :: rest)).map Int.ofNat

/-- `','.join(xs)`. -/
def joinComma : List (List Char) → List Char
  | [] => []
  | [x] => x
  | x :: xs => x ++ ',' :: joinComma xs

/-- `s.split(',')`: always returns at least one (possibly empty) piece. -/
def splitOnComma : List Char → List (List Char)
  | [] => [[]]
  | c :: rest =>
      if c = ',' then [] :: splitOnComma rest
      else
        match splitOnComma rest with
        | h :: t => (c :: h) :: t
        | [] => [[c]]

/-- `MultiChoice.process_bind_param`: a string is stored unchanged, any
other iterable is comma-joined. -/
def multiChoiceBind : (List Char) ⊕ (List (List Char)) → List Char
  | Sum.inl s => s
  | Sum.inr xs => joinComma xs

/-- One step of the `_ints` list comprehension: parse the piece (a failure
propagates as an exception) and keep it when it is a configured choice. -/
def intsStep (choices : List (Int × String)) (p : List Char)
    (acc : Option (List Int)) : Option (List Int) :=
  match acc, parseIntChars p with
  | some l, some n => some (if n ∈ choices.map Prod.fst then n :: l else l)
  | _, _ => none

/-- `MagModel._ints`: `[int(i) for i in str(val).split(',') if int(i) in
choices] if val else []`; `none` models the `ValueError` that `int` raises
on a non-numeric piece. -/
def intsOfStored (choices : List (Int × String)) (val : List Char) : Option (List Int) :=
  if val = [] then some []
  else (splitOnComma val).foldr (intsStep choices) (some [])

theorem digitVal_digitChar (d : Nat) (h : d < 10) :
    digitVal (Nat.digitChar d) = some d := by
  interval_cases d <;> rfl

theorem digitChar_ne_comma (d : Nat) (h : d < 10) : Nat.digitChar d ≠ ',' := by
  interval_cases d <;> decide

theorem parseNatChars_natChars (n : Nat) : parseNatChars (natChars n) = some n := by
  induction n using Nat.strong_induction_on with
  | _ n ih =>
    rw [natChars]
    by_cases h : n < 10
    · rw [dif_pos h]
      show (match some 0, digitVal (Nat.digitChar n) with
        | some a, some d => some (a * 10 + d)
        | _, _ => none) = some n
      rw [digitVal_digitChar n h]
      simp
    · rw [dif_neg h]
      rw [parseNatChars, List.foldl_append]
      have hdiv : n / 10 < n := Nat.div_lt_self (by omega) (by omega)
      have := ih (n / 10) hdiv
      rw [parseNatChars] at this
      rw [this]
      show (match some (n / 10), digitVal (Nat.digitChar (n % 10)) with
        | some a, some d => some (a * 10 + d)
        | _, _ => none) = some n
      rw [digitVal_digitChar _ (Nat.mod_lt n (by omega))]
      simp only []
      congr 1
      omega

theorem natChars_ne_nil (n : Nat) : natChars n ≠ [] := by
  rw [natChars]
  by_cases h : n < 10
  · rw [dif_pos h]; simp
  · rw [dif_neg h]
    intro hc
    exact natChars_ne_nil (n / 10) (List.append_eq_nil.mp hc).1
decreasing_by exact Nat.div_lt_self (by omega) (by omega)

theorem comma_not_mem_natChars (n : Nat) : ',' ∉ natChars n := by
  induction n using Nat.strong_induction_on with
  | _ n ih =>
    rw [natChars]
    by_cases h : n < 10
    · rw [dif_pos h]
      simp only [List.mem_singleton]
      exact fun hc => digitChar_ne_comma n h hc.symm
    · rw [dif_neg h]
      intro hc
      rcases List.mem_append.mp hc with hm | hm
      · exact ih (n / 10) (Nat.div_lt_self (by omega) (by omega)) hm
      · exact digitChar_ne_comma (n % 10) (Nat.mod_lt n (by omega))
          (List.mem_singleton.mp hm).symm

theorem natChars_head_digit (n : Nat) :
    ∃ c rest, natChars n = c :: rest ∧ digitVal c ≠ none := by
  rw [natChars]
  by_cases h : n < 10
  · rw [dif_pos h]
    exact ⟨Nat.digitChar n, [], rfl, by rw [digitVal_digitChar n h]; simp⟩
  · rw [dif_neg h]
    obtain ⟨c, rest, he, hd⟩ := natChars_head_digit (n / 10)
    exact ⟨c, rest ++ [Nat.digitChar (n % 10)], by rw [he]; rfl, hd⟩
decreasing_by exact Nat.div_lt_self (by omega) (by omega)

theorem parseIntChars_intChars (n : Int) : parseIntChars (intChars n) = some n := by
  by_cases hn : n < 0
  · rw [intChars, if_pos hn]
    have hm : ((-n).toNat : Int) = -n := Int.toNat_of_nonneg (by omega)
    rw [parseIntChars]
    rw [if_pos rfl, if_neg (natChars_ne_nil _), parseNatChars_natChars]
    simp only [Option.map_some']
    congr 1
    simp only [Int.ofNat_eq_coe]
    omega
  · rw [intChars, if_neg hn]
    obtain ⟨c, rest, he, hd⟩ := natChars_head_digit n.toNat
    have hc : c ≠ '-' := by
      intro hcm
      exact hd (by rw [hcm]; rfl)
    rw [he, parseIntChars, if_neg hc, ← he, parseNatChars_natChars]
    simp only [Option.map_some']
    congr 1
    simp only [Int.ofNat_eq_coe]
    omega

theorem comma_not_mem_intChars (n : Int) : ',' ∉ intChars n := by
  rw [intChars]
  by_cases hn : n < 0
  · rw [if_pos hn]
    intro hc
    rcases List.mem_cons.mp hc with h | h
    · cases h
    · exact comma_not_mem_natChars _ h
  · rw [if_neg hn]
    exact comma_not_mem_natChars _

theorem intChars_ne_nil (n : Int) : intChars n ≠ [] := by
  rw [intChars]
  by_cases hn : n < 0
  · rw [if_pos hn]; simp
  · rw [if_neg hn]; exact natChars_ne_nil _

theorem splitOnComma_no_comma (x : List Char) (hx : ',' ∉ x) :
    splitOnComma x = [x] := by
  induction x with
  | nil => rfl
  | cons c rest ih =>
    have hc : c ≠ ',' := fun h => hx (h ▸ List.mem_cons_self _ _)
    have hrest : ',' ∉ rest := fun h => hx (List.mem_cons_of_mem _ h)
    rw [splitOnComma, if_neg hc, ih hrest]

theorem splitOnComma_append (x r : List Char) (hx : ',' ∉ x) :
    splitOnComma (x ++ ',' :: r) = x :: splitOnComma r := by
  induction x with
  | nil =>
    rw [List.nil_append, splitOnComma, if_pos rfl]
  | cons c rest ih =>
    have hc : c ≠ ',' := fun h => hx (h ▸ List.mem_cons_self _ _)
    have hrest : ',' ∉ rest := fun h => hx (List.mem_cons_of_mem _ h)
    rw [List.cons_append, splitOnComma, if_neg hc, ih hrest]

theorem splitOnComma_joinComma :
    ∀ (xs : List (List Char)), xs ≠ [] → (∀ x ∈ xs, ',' ∉ x) →
      splitOnComma (joinComma xs) = xs
  | [], h, _ => absurd rfl h
  | [x], _, hall => by
      rw [joinComma]
      exact splitOnComma_no_comma x (hall x (List.mem_singleton.mpr rfl))
  | x :: y :: t, _, hall => by
      have h1 : joinComma (x :: y :: t) = x ++ ',' :: joinComma (y :: t) := rfl
      rw [h1, splitOnComma_append x _ (hall x (List.mem_cons_self _ _)),
        splitOnComma_joinComma (y :: t) (by simp)
          (fun z hz => hall z (List.mem_cons_of_mem _ hz))]

theorem intsStep_foldr (choices : List (Int × String)) (ns : List Int) :
    (ns.map intChars).foldr (intsStep choices) (some [])
      = some (ns.filter (fun n => decide (n ∈ choices.map Prod.fst))) := by
  induction ns with
  | nil => rfl
  | cons n t ih =>
    rw [List.map_cons, List.foldr_cons, ih]
    simp only [intsStep, parseIntChars_intChars]
    rw [List.filter_cons]
    by_cases hmem : n ∈ choices.map Prod.fst
    · rw [if_pos hmem, if_pos (by simpa using hmem)]
    · rw [if_neg hmem, if_neg (by simpa using hmem)]

theorem joinComma_cons_ne_nil (x : List Char) (xs : List (List Char))
    (hx : x ≠ []) : joinComma (x :: xs) ≠ [] := by
  cases xs with
  | nil => exact hx
  | cons y t =>
    have h1 : joinComma (x :: y :: t) = x ++ ',' :: joinComma (y :: t) := rfl
    rw [h1]
    simp [hx]

/-- C8: a `MultiChoice` column stores a string unchanged and comma-joins any
other iterable, and `_ints` recovers from the stored string exactly the
configured integer choices, so the store-then-read round trip over a list of
valid integer choices returns those integers. -/
theorem multi_choice_round_trip (choices : List (Int × String)) (s : List Char)
    (ns : List Int) :
    multiChoiceBind (Sum.inl s) = s
    ∧ multiChoiceBind (Sum.inr (ns.map intChars)) = joinComma (ns.map intChars)
    ∧ intsOfStored choices (multiChoiceBind (Sum.inr (ns.map intChars)))
        = some (ns.filter (fun n => decide (n ∈ choices.map Prod.fst)))
    ∧ ((∀ n ∈ ns, n ∈ choices.map Prod.fst) →
        intsOfStored choices (multiChoiceBind (Sum.inr (ns.map intChars)))
          = some ns) := by
  have hmain : intsOfStored choices (multiChoiceBind (Sum.inr (ns.map intChars)))
      = some (ns.filter (fun n => decide (n ∈ choices.map Prod.fst))) := by
    cases ns with
    | nil => rfl
    | cons a t =>
      have hne : joinComma ((a :: t).map intChars) ≠ [] :=
        joinComma_cons_ne_nil _ _ (intChars_ne_nil a)
      show intsOfStored choices (joinComma ((a :: t).map intChars)) = _
      rw [intsOfStored, if_neg hne,
        splitOnComma_joinComma ((a :: t).map intChars) (by simp)
          (by
            intro x hx
            obtain ⟨n, _, hn⟩ := List.mem_map.mp hx
            exact hn ▸ comma_not_mem_intChars n),
        intsStep_foldr]
  refine ⟨rfl, rfl, hmain, fun hall => ?_⟩
  rw [hmain]
  congr 1
  rw [List.filter_eq_self]
  intro n hn
  simpa using hall n hn

/-- Witness for C8: the list `[3, 1]` of valid choices round-trips through
the comma string representation. -/
theorem multi_choice_round_trip_witness :
    multiChoiceBind (Sum.inl ('h' :: 'i' :: []))
        = 'h' :: 'i' :: []
    ∧ multiChoiceBind (Sum.inr (([3, 1] : List Int).map intChars))
        = joinComma (([3, 1] : List Int).map intChars)
    ∧ intsOfStored [(1, "a"), (3, "b")]
        (multiChoiceBind (Sum.inr (([3, 1] : List Int).map intChars)))
        = some (([3, 1] : List Int).filter
            (fun n => decide (n ∈ ([(1, "a"), (3, "b")].map Prod.fst : List Int))))
    ∧ ((∀ n ∈ ([3, 1] : List Int), n ∈ ([(1, "a"), (3, "b")].map Prod.fst : List Int)) →
        intsOfStored [(1, "a"), (3, "b")]
          (multiChoiceBind (Sum.inr (([3, 1] : List Int).map intChars)))
          = some [3, 1]) :=
  multi_choice_round_trip [(1, "a"), (3, "b")] ('h' :: 'i' :: []) [3, 1]

/-- A value bound to a `Choice` column: web forms submit strings, code may
bind integers; `None` is handled separately. -/
inductive PyVal where
  | int (n : Int)
  | str (s : List Char)
deriving DecidableEq, Repr

/-- `int(value)`: identity on integers, decimal parse on strings, `none`
models the `ValueError` on anything unparseable. -/
def toIntPy : PyVal → Option Int
  | PyVal.int n => some n
  | PyVal.str s => parseIntChars s

/-- The configuration of one `Choice` column: the choices list and the
`allow_unspecified` flag. -/
structure ChoiceCol where
  choices : List (Int × String)
  allow_unspecified : Bool

/-- The exception raised by `Choice.process_bind_param`: the custom
`ValueError(\u2018{!r} not a valid option out of {}\u2019)` carries the offending
value and the choices, while `intValueError` is the `ValueError` that
`int(value)` itself raises in the `else` branch (not caught by the bare
`except`, which only wraps the `assert`). -/
inductive BindError where
  | valueError (value : PyVal) (choices : List (Int × String))
  | intValueError (value : PyVal)
deriving DecidableEq, Repr

/-- `Choice.process_bind_param(value, dialect)`: `None` passes through;
otherwise `assert self.allow_unspecified or int(value) in self.choices` is
evaluated (with Python short-circuiting, so `int(value)` is not evaluated
under `allow_unspecified=True`), any exception in it is converted to the
custom `ValueError`, and on success `return int(value)` runs outside the
`try`. -/
def processBindParam (col : ChoiceCol) (value : Option PyVal) :
    Except BindError (Option Int) :=
  match value with
  | none => Except.ok none
  | some v =>
      if col.allow_unspecified then
        match toIntPy v with
        | some i => Except.ok (some i)
        | none => Except.error (BindError.intValueError v)
      else
        match toIntPy v with
        | none => Except.error (BindError.valueError v col.choices)
        | some i =>
            if i ∈ col.choices.map Prod.fst then Except.ok (some i)
            else Except.error (BindError.valueError v col.choices)

/-- C6: with `allow_unspecified` left `False`, binding a non-`None` value
whose integer conversion is not a configured choice key, or which cannot be
converted to an integer, raises a `ValueError` naming the invalid value;
every valid non-`None` value is stored as its integer conversion, `None` is
passed through, and with `allow_unspecified=True` any integer-convertible
value is accepted. -/
theorem choice_bind_validation (col : ChoiceCol) (v : PyVal) (i : Int) :
    (col.allow_unspecified = false → toIntPy v = some i →
      i ∉ col.choices.map Prod.fst →
      processBindParam col (some v)
        = Except.error (BindError.valueError v col.choices))
    ∧ (col.allow_unspecified = false → toIntPy v = none →
      processBindParam col (some v)
        = Except.error (BindError.valueError v col.choices))
    ∧ (toIntPy v = some i → i ∈ col.choices.map Prod.fst →
      processBindParam col (some v) = Except.ok (some i))
    ∧ (col.allow_unspecified = true → toIntPy v = some i →
      processBindParam col (some v) = Except.ok (some i))
    ∧ processBindParam col none = Except.ok none := by
  refine ⟨?_, ?_, ?_, ?_, rfl⟩
  · intro hau hi hmem
    simp only [processBindParam, hau, Bool.false_eq_true, if_false, hi]
    rw [if_neg hmem]
  · intro hau hi
    simp only [processBindParam, hau, Bool.false_eq_true, if_false, hi]
  · intro hi hmem
    by_cases hau : col.allow_unspecified
    · simp only [processBindParam, hau, if_true, hi]
    · simp only [processBindParam, hau, Bool.false_eq_true, if_false, hi]
      rw [if_pos hmem]
  · intro hau hi
    simp only [processBindParam, hau, if_true, hi]

/-- Witness for C6: the string value `"5"` is rejected by a column whose
choices are 1 and 2, the integer 1 is accepted, and `None` passes through. -/
theorem choice_bind_validation_witness :
    ((ChoiceCol.mk [(1, "a"), (2, "b")] false).allow_unspecified = false →
      toIntPy (PyVal.str ['5']) = some 5 →
      (5 : Int) ∉ (ChoiceCol.mk [(1, "a"), (2, "b")] false).choices.map Prod.fst →
      processBindParam (ChoiceCol.mk [(1, "a"), (2, "b")] false)
          (some (PyVal.str ['5']))
        = Except.error (BindError.valueError (PyVal.str ['5'])
            (ChoiceCol.mk [(1, "a"), (2, "b")] false).choices))
    ∧ ((ChoiceCol.mk [(1, "a"), (2, "b")] false).allow_unspecified = false →
      toIntPy (PyVal.str ['5']) = none →
      processBindParam (ChoiceCol.mk [(1, "a"), (2, "b")] false)
          (some (PyVal.str ['5']))
        = Except.error (BindError.valueError (PyVal.str ['5'])
            (ChoiceCol.mk [(1, "a"), (2, "b")] false).choices))
    ∧ (toIntPy (PyVal.str ['5']) = some 5 →
      (5 : Int) ∈ (ChoiceCol.mk [(1, "a"), (2, "b")] false).choices.map Prod.fst →
      processBindParam (ChoiceCol.mk [(1, "a"), (2, "b")] false)
          (some (PyVal.str ['5'])) = Except.ok (some 5))
    ∧ ((ChoiceCol.mk [(1, "a"), (2, "b")] false).allow_unspecified = true →
      toIntPy (PyVal.str ['5']) = some 5 →
      processBindParam (ChoiceCol.mk [(1, "a"), (2, "b")] false)
          (some (PyVal.str ['5'])) = Except.ok (some 5))
    ∧ processBindParam (ChoiceCol.mk [(1, "a"), (2, "b")] false) none
        = Except.ok none :=
  choice_bind_validation (ChoiceCol.mk [(1, "a"), (2, "b")] false)
    (PyVal.str ['5']) 5

/-- One column of a tracked model instance: its name, the original value
currently in the database (`orig_value_of`, from the ORM history) and the
current in-memory value.  Values are modelled as integers; `reprVal` stands
for `Tracking.repr`. -/
structure TrackedColumn where
  name : String
  origValue : Int
  currValue : Int
deriving DecidableEq, Repr

/-- `Tracking.repr` on a plain column: `repr(value)`. -/
def reprVal (v : Int) : String := toString v

/-- The single-quote character used by the `\u2018{} -> {}\u2019` diff format. -/
def quoteChar : Char := Char.ofNat 39

/-- `"\u2018{} -> {}\u2019".format(old, new)`. -/
def diffEntry (oldV newV : Int) : String :=
  String.mk (quoteChar :: ((reprVal oldV ++ " -> " ++ reprVal newV).data
    ++ [quoteChar]))

/-- `Tracking.differences(instance)`: the columns whose current value
differs from the original, each mapped to the old-arrow-new string. -/
def differences (cols : List TrackedColumn) : List (String × String) :=
  cols.filterMap fun col =>
    if col.origValue ≠ col.currValue
    then some (col.name, diffEntry col.origValue col.currValue)
    else none

/-- `\u2018, \u2019.join(...)` used by `Tracking.format`. -/
def joinCommaSpace : List String → String
  | [] => ""
  | [x] => x
  | x :: xs => x ++ ", " ++ joinCommaSpace xs

/-- `Tracking.format(values)`: `k=v` pairs joined by a comma and space. -/
def formatTracking (values : List (String × String)) : String :=
  joinCommaSpace (values.map fun kv => kv.1 ++ "=" ++ kv.2)

/-- The tracking action recorded for a flushed update. -/
inductive TrackAction where
  | updated
  | autoBadgeShift
deriving DecidableEq, Repr

/-- The `action == c.UPDATED` branch of `Tracking.track`: compute the diff,
upgrade the action to `c.AUTO_BADGE_SHIFT` when the diff is exactly the
`badge_num` column, and write no entry at all when the formatted data is
empty. -/
def trackUpdated (cols : List TrackedColumn) : Option (TrackAction × String) :=
  let diff := differences cols
  let data := formatTracking diff
  if diff.length = 1 ∧ diff.any (fun kv => kv.1 = "badge_num") then
    some (TrackAction.autoBadgeShift, data)
  else if data = "" then none
  else some (TrackAction.updated, data)

theorem formatTracking_ne_empty (values : List (String × String))
    (hne : values ≠ []) : formatTracking values ≠ "" := by
  match values, hne with
  | [kv], _ =>
    show kv.1 ++ "=" ++ kv.2 ≠ ""
    intro hc
    have := congrArg String.length hc
    simp [String.length_append] at this
    exact absurd this.1.2 (by decide)
  | kv :: kv2 :: t, _ =>
    show kv.1 ++ "=" ++ kv.2 ++ ", " ++ joinCommaSpace _ ≠ ""
    intro hc
    have := congrArg String.length hc
    simp [String.length_append] at this
    exact absurd this.1.1.1.2 (by decide)

theorem differences_names (cols : List TrackedColumn) (col : TrackedColumn)
    (hnd : (cols.map TrackedColumn.name).Nodup) (hcol : col ∈ cols) :
    (col.origValue ≠ col.currValue
      ↔ col.name ∈ (differences cols).map Prod.fst)
    ∧ (col.origValue ≠ col.currValue →
      (col.name, diffEntry col.origValue col.currValue) ∈ differences cols) := by
  have hmem : col.origValue ≠ col.currValue →
      (col.name, diffEntry col.origValue col.currValue) ∈ differences cols := by
    intro hne
    exact List.mem_filterMap.mpr ⟨col, hcol, by rw [if_pos hne]⟩
  refine ⟨⟨fun hne => List.mem_map.mpr ⟨_, hmem hne, rfl⟩, ?_⟩, hmem⟩
  intro hin
  obtain ⟨⟨nm, dv⟩, hd, hfst⟩ := List.mem_map.mp hin
  obtain ⟨col2, hcol2, hcol2eq⟩ := List.mem_filterMap.mp hd
  by_cases hne2 : col2.origValue ≠ col2.currValue
  · rw [if_pos hne2] at hcol2eq
    have hname : col2.name = col.name := by
      have h2 := congrArg Prod.fst (Option.some.inj hcol2eq)
      simp only at h2
      rw [h2]
      exact hfst
    have : col2 = col :=
      List.inj_on_of_nodup_map hnd hcol2 hcol hname
    rw [← this]
    exact hne2
  · rw [if_neg hne2] at hcol2eq
    cases hcol2eq

theorem differences_eq_nil_iff_data_empty (cols : List TrackedColumn) :
    formatTracking (differences cols) = "" ↔ differences cols = [] := by
  constructor
  · intro h
    by_contra hne
    exact formatTracking_ne_empty _ hne h
  · intro h
    rw [h]
    rfl

/-- C7: `Tracking.differences` returns exactly the set of columns whose
current value differs from the original database value, each mapped to an
old-arrow-new representation; for an `UPDATED` action `Tracking.track`
writes no entry at all when that diff is empty, and records
`c.AUTO_BADGE_SHIFT` instead of `c.UPDATED` when the diff is exactly the
`badge_num` column. -/
theorem tracking_differences_track (cols : List TrackedColumn)
    (col : TrackedColumn)
    (hnd : (cols.map TrackedColumn.name).Nodup) (hcol : col ∈ cols) :
    (col.origValue ≠ col.currValue
      ↔ col.name ∈ (differences cols).map Prod.fst)
    ∧ (col.origValue ≠ col.currValue →
      (col.name, diffEntry col.origValue col.currValue) ∈ differences cols)
    ∧ (trackUpdated cols = none ↔ differences cols = [])
    ∧ ((differences cols).length = 1 →
      (differences cols).any (fun kv => kv.1 = "badge_num") →
      trackUpdated cols
        = some (TrackAction.autoBadgeShift, formatTracking (differences cols)))
    ∧ (differences cols ≠ [] →
      ¬((differences cols).length = 1
        ∧ (differences cols).any (fun kv => kv.1 = "badge_num")) →
      trackUpdated cols
        = some (TrackAction.updated, formatTracking (differences cols))) := by
  obtain ⟨hiff, hmem⟩ := differences_names cols col hnd hcol
  refine ⟨hiff, hmem, ?_, ?_, ?_⟩
  · constructor
    · intro h
      rw [trackUpdated] at h
      by_cases hb : (differences cols).length = 1
          ∧ (differences cols).any (fun kv => kv.1 = "badge_num")
      · rw [if_pos hb] at h
        cases h
      · rw [if_neg hb] at h
        by_cases hdata : formatTracking (differences cols) = ""
        · exact (differences_eq_nil_iff_data_empty cols).mp hdata
        · rw [if_neg hdata] at h
          cases h
    · intro h
      rw [trackUpdated]
      have hb : ¬((differences cols).length = 1
          ∧ (differences cols).any (fun kv => kv.1 = "badge_num")) := by
        rw [h]
        simp
      rw [if_neg hb, if_pos ((differences_eq_nil_iff_data_empty cols).mpr h)]
  · intro hlen hbadge
    rw [trackUpdated, if_pos ⟨hlen, hbadge⟩]
  · intro hne hb
    rw [trackUpdated, if_neg hb,
      if_neg (fun hdata => hne ((differences_eq_nil_iff_data_empty cols).mp hdata))]

/-- Witness for C7: an instance with an unchanged `paid` column and a
changed `badge_num` column; the diff is exactly `badge_num`, so the action
is the automatic badge shift. -/
theorem tracking_differences_track_witness :
    ((([TrackedColumn.mk "paid" 0 0, TrackedColumn.mk "badge_num" 5 6].map
        TrackedColumn.name).Nodup)
    ∧ TrackedColumn.mk "badge_num" 5 6
        ∈ [TrackedColumn.mk "paid" 0 0, TrackedColumn.mk "badge_num" 5 6])
    ∧ (((TrackedColumn.mk "badge_num" 5 6).origValue
          ≠ (TrackedColumn.mk "badge_num" 5 6).currValue
        ↔ (TrackedColumn.mk "badge_num" 5 6).name
          ∈ (differences [TrackedColumn.mk "paid" 0 0,
              TrackedColumn.mk "badge_num" 5 6]).map Prod.fst)) := by
  have h := tracking_differences_track
    [TrackedColumn.mk "paid" 0 0, TrackedColumn.mk "badge_num" 5 6]
    (TrackedColumn.mk "badge_num" 5 6) (by decide) (by decide)
  exact ⟨⟨by decide, by decide⟩, h.1⟩

/-- The outcome of one `Session.initialize_db(modify_tables=True)` attempt. -/
inductive DbAttempt where
  | success
  | keyboardInterrupt
  | failure
deriving DecidableEq, Repr

/-- How the startup loop ends: the `break` on success, the `raise` when the
counter reaches zero, or still waiting for more attempts. -/
inductive InitDbResult where
  | initialized
  | raised
  | running
deriving DecidableEq, Repr

/-- The body of the startup retry loop, paired with the number of
`stopped.wait(5)` five-second waits performed so far.  A
`KeyboardInterrupt` is logged without touching the counter; any other
failure decrements `num_tries_remaining`, re-raises when it reaches zero,
and otherwise waits five seconds before the next attempt. -/
def initDbLoop : List DbAttempt → Nat → Nat → InitDbResult × Nat
  | [], _, waits => (InitDbResult.running, waits)
  | a :: rest, tries, waits =>
      match a with
      | DbAttempt.success => (InitDbResult.initialized, waits)
      | DbAttempt.keyboardInterrupt => initDbLoop rest tries waits
      | DbAttempt.failure =>
          if tries - 1 = 0 then (InitDbResult.raised, waits)
          else initDbLoop rest (tries - 1) (waits + 1)

/-- `initialize_db()`: the loop starts with `num_tries_remaining = 10` and
no waits performed. -/
def startupDbInit (outcomes : List DbAttempt) : InitDbResult × Nat :=
  initDbLoop outcomes 10 0

theorem initDbLoop_success (post : List DbAttempt) :
    ∀ (pre : List DbAttempt) (tries waits : Nat),
      DbAttempt.success ∉ pre → pre.count DbAttempt.failure < tries →
      initDbLoop (pre ++ DbAttempt.success :: post) tries waits
        = (InitDbResult.initialized, waits + pre.count DbAttempt.failure)
  | [], tries, waits, _, _ => by simp [initDbLoop]
  | a :: pre, tries, waits, hns, hcnt => by
      have hns2 : DbAttempt.success ∉ pre := fun h => hns (List.mem_cons_of_mem _ h)
      have hna : a ≠ DbAttempt.success := fun h => hns (h ▸ List.mem_cons_self _ _)
      cases a with
      | success => exact absurd rfl hna
      | keyboardInterrupt =>
          rw [List.cons_append]
          show initDbLoop (pre ++ DbAttempt.success :: post) tries waits = _
          rw [initDbLoop_success post pre tries waits hns2
            (by simpa [List.count_cons] using hcnt)]
          simp [List.count_cons]
      | failure =>
          rw [List.cons_append]
          show (if tries - 1 = 0 then (InitDbResult.raised, waits)
            else initDbLoop (pre ++ DbAttempt.success :: post) (tries - 1) (waits + 1))
            = _
          have hcnt2 : pre.count DbAttempt.failure + 1 < tries := by
            simpa [List.count_cons] using hcnt
          rw [if_neg (by omega),
            initDbLoop_success post pre (tries - 1) (waits + 1) hns2 (by omega)]
          simp [List.count_cons]
          omega

theorem initDbLoop_raise (rest : List DbAttempt) :
    ∀ (pre : List DbAttempt) (tries waits : Nat),
      DbAttempt.success ∉ pre → pre.count DbAttempt.failure = tries →
      1 ≤ tries →
      initDbLoop (pre ++ rest) tries waits
        = (InitDbResult.raised, waits + tries - 1)
  | [], tries, waits, _, hcnt, htr => by
      simp [List.count_nil] at hcnt
      omega
  | a :: pre, tries, waits, hns, hcnt, htr => by
      have hns2 : DbAttempt.success ∉ pre := fun h => hns (List.mem_cons_of_mem _ h)
      have hna : a ≠ DbAttempt.success := fun h => hns (h ▸ List.mem_cons_self _ _)
      cases a with
      | success => exact absurd rfl hna
      | keyboardInterrupt =>
          rw [List.cons_append]
          show initDbLoop (pre ++ rest) tries waits = _
          exact initDbLoop_raise rest pre tries waits hns2
            (by simpa [List.count_cons] using hcnt) htr
      | failure =>
          rw [List.cons_append]
          show (if tries - 1 = 0 then (InitDbResult.raised, waits)
            else initDbLoop (pre ++ rest) (tries - 1) (waits + 1)) = _
          have hcnt2 : pre.count DbAttempt.failure + 1 = tries := by
            simpa [List.count_cons] using hcnt
          by_cases h1 : tries - 1 = 0
          · rw [if_pos h1]
            have : waits + tries - 1 = waits := by omega
            rw [this]
          · rw [if_neg h1,
              initDbLoop_raise rest pre (tries - 1) (waits + 1) hns2 (by omega)
                (by omega)]
            have : waits + 1 + (tries - 1) - 1 = waits + tries - 1 := by omega
            rw [this]

/-- C5: startup keeps attempting `Session.initialize_db(modify_tables=True)`
with a retry counter starting at 10: each failure other than a
`KeyboardInterrupt` decrements the counter and waits five seconds, the
exception is re-raised once the counter reaches zero (after nine waits),
and the loop exits on the first success (having waited once per prior
failure). -/
theorem init_db_retries (pre post : List DbAttempt)
    (hns : DbAttempt.success ∉ pre) :
    (pre.count DbAttempt.failure < 10 →
      startupDbInit (pre ++ DbAttempt.success :: post)
        = (InitDbResult.initialized, pre.count DbAttempt.failure))
    ∧ (pre.count DbAttempt.failure = 10 →
      startupDbInit (pre ++ post) = (InitDbResult.raised, 9)) := by
  constructor
  · intro hcnt
    rw [startupDbInit, initDbLoop_success post pre 10 0 hns hcnt]
    rw [Nat.zero_add]
  · intro hcnt
    rw [startupDbInit, initDbLoop_raise post pre 10 0 hns hcnt (by omega)]

/-- Witness for C5: three failures (one interleaved `KeyboardInterrupt`)
followed by a success initialize the database after three waits, and ten
straight failures re-raise after nine waits. -/
theorem init_db_retries_witness :
    (DbAttempt.success ∉ [DbAttempt.failure, DbAttempt.keyboardInterrupt,
        DbAttempt.failure, DbAttempt.failure]
      ∧ ([DbAttempt.failure, DbAttempt.keyboardInterrupt, DbAttempt.failure,
          DbAttempt.failure].count DbAttempt.failure < 10 →
        startupDbInit ([DbAttempt.failure, DbAttempt.keyboardInterrupt,
            DbAttempt.failure, DbAttempt.failure] ++ DbAttempt.success :: [])
          = (InitDbResult.initialized,
            [DbAttempt.failure, DbAttempt.keyboardInterrupt, DbAttempt.failure,
              DbAttempt.failure].count DbAttempt.failure)))
    ∧ (DbAttempt.success ∉ List.replicate 10 DbAttempt.failure
      ∧ ((List.replicate 10 DbAttempt.failure).count DbAttempt.failure = 10 →
        startupDbInit (List.replicate 10 DbAttempt.failure ++ [])
          = (InitDbResult.raised, 9))) :=
  ⟨⟨by decide,
    (init_db_retries [DbAttempt.failure, DbAttempt.keyboardInterrupt,
      DbAttempt.failure, DbAttempt.failure] [] (by decide)).1⟩,
   ⟨by decide,
    (init_db_retries (List.replicate 10 DbAttempt.failure) [] (by decide)).2⟩⟩

/-! The `BADGE_LOCK` discipline.  `c.BADGE_LOCK` is a `threading.Lock`,
modelled as a boolean (`true` = held).  A flush of the ORM session fires the
registered listeners in protocol order: the `before_flush` listeners
(`_presave_adjustments`, then `_track_changes`) at the start, then the flush
work, then either `after_flush` (`_release_badge_lock`) on completion or
`dbapi_error` (`_release_badge_lock_on_error`) on a database error
(`register_session_listeners`). -/

/-- `c.BADGE_LOCK.acquire()`: blocks (no successor state in a single-thread
trace) when the lock is already held. -/
def lockAcquire : Bool → Option Bool
  | false => some true
  | true => none

/-- `_release_badge_lock`: `c.BADGE_LOCK.release()` inside `try`, with the
`RuntimeError` of releasing an unheld lock swallowed and logged — the lock
is unheld afterwards in either case. -/
def releaseBadgeLock (_lock : Bool) : Bool := false

/-- `_release_badge_lock_on_error`: same release-and-swallow, run by the
`dbapi_error` listener. -/
def releaseBadgeLockOnError (_lock : Bool) : Bool := false

/-- Whether the flush completes or fails with a database error. -/
inductive FlushOutcome where
  | completed
  | dbError
deriving DecidableEq, Repr

/-- One ORM flush: `_presave_adjustments` acquires the lock before running
any presave/predelete adjustments, and the matching release listener runs at
the end.  Returns the lock state while the adjustments and flush body run,
and the lock state after the flush. -/
def runFlush (outcome : FlushOutcome) (lock : Bool) : Option (Bool × Bool) :=
  match lockAcquire lock with
  | none => none
  | some heldDuring =>
      match outcome with
      | FlushOutcome.completed => some (heldDuring, releaseBadgeLock heldDuring)
      | FlushOutcome.dbError => some (heldDuring, releaseBadgeLockOnError heldDuring)

/-- A sequence of flushes, threading the lock state. -/
def runFlushes : List FlushOutcome → Bool → Option Bool
  | [], lock => some lock
  | o :: rest, lock =>
      match runFlush o lock with
      | none => none
      | some (_, lockAfter) => runFlushes rest lockAfter

/-- C3: starting from an unheld `BADGE_LOCK`, every flush — whether it
completes or fails with a database error — holds the lock exactly for its
duration: the lock is held while the presave/predelete adjustments and flush
body run and is unheld again afterwards, and any sequence of flushes keeps
the lock unheld between flushes. -/
theorem badge_lock_flush_duration (outcome : FlushOutcome)
    (outcomes : List FlushOutcome) :
    runFlush outcome false = some (true, false)
    ∧ runFlushes outcomes false = some false := by
  constructor
  · cases outcome <;> rfl
  · induction outcomes with
    | nil => rfl
    | cons o rest ih =>
      rw [runFlushes]
      cases o <;> exact ih

/-- The three badge-number mutation operations of the session mixin. -/
inductive BadgeOp where
  | nextBadgeNumOp
  | shiftBadgesOp
  | changeBadgeOp
deriving DecidableEq, Repr

/-- A lock-annotated execution trace: the current lock state and the badge
operations executed so far, each paired with whether `c.BADGE_LOCK` was held
when it ran. -/
structure LockTrace where
  lock : Bool
  calls : List (BadgeOp × Bool)
deriving DecidableEq, Repr

/-- Execute one badge operation, recording the lock state it observes. -/
def callBadgeOp (op : BadgeOp) (s : LockTrace) : LockTrace :=
  { s with calls := s.calls ++ [(op, s.lock)] }

/-- The entry points that reach the badge operations.  A `flush` runs the
presave/predelete hooks (`Attendee._badge_adjustments` calling
`next_badge_num`, `Attendee._shift_badges` and `_staffing_adjustments`
calling `shift_badges`) between the `_presave_adjustments` acquire and the
release listener.  `webChangeBadge` models the callers of `change_badge`. -/
inductive SessionAction where
  | flush (hookOps : List BadgeOp)
  | webChangeBadge
deriving DecidableEq, Repr

/-- Run one entry point.  The `flush` branch is the listener protocol of
`register_session_listeners`.  The `webChangeBadge` branch is modelled from
the spec: the web handlers that call `change_badge` are not part of this
snapshot, and per the spec the badge-numbering/shifting logic is gated by
the single global lock, so the modelled caller holds `c.BADGE_LOCK` around
the call. -/
def runAction (s : LockTrace) : SessionAction → Option LockTrace
  | SessionAction.flush hookOps =>
      match lockAcquire s.lock with
      | none => none
      | some heldDuring =>
          let s1 := { s with lock := heldDuring }
          let s2 := hookOps.foldl (fun t op => callBadgeOp op t) s1
          some { s2 with lock := releaseBadgeLock s2.lock }
  | SessionAction.webChangeBadge =>
      match lockAcquire s.lock with
      | none => none
      | some heldDuring =>
          let s1 := { s with lock := heldDuring }
          let s2 := callBadgeOp BadgeOp.changeBadgeOp s1
          some { s2 with lock := releaseBadgeLock s2.lock }

/-- A whole session: a sequence of flushes and web calls starting with the
lock unheld and nothing executed. -/
def runActionsFrom : List SessionAction → LockTrace → Option LockTrace
  | [], s => some s
  | a :: rest, s =>
      match runAction s a with
      | none => none
      | some s2 => runActionsFrom rest s2

/-- `runActionsFrom` from the initial state. -/
def runActions (acts : List SessionAction) : Option LockTrace :=
  runActionsFrom acts ⟨false, []⟩

theorem foldl_callBadgeOp (ops : List BadgeOp) (s : LockTrace) :
    (ops.foldl (fun t op => callBadgeOp op t) s)
      = { s with calls := s.calls ++ ops.map (fun op => (op, s.lock)) } := by
  induction ops generalizing s with
  | nil => simp
  | cons op rest ih =>
    rw [List.foldl_cons, ih]
    simp [callBadgeOp]

theorem runActionsFrom_invariant (acts : List SessionAction) (s0 s : LockTrace)
    (hlock : s0.lock = false) (hcalls : ∀ c ∈ s0.calls, c.2 = true)
    (h : runActionsFrom acts s0 = some s) :
    (∀ c ∈ s.calls, c.2 = true) ∧ s.lock = false := by
  induction acts generalizing s0 with
  | nil =>
    rw [runActionsFrom] at h
    cases h
    exact ⟨hcalls, hlock⟩
  | cons a rest ih =>
    rw [runActionsFrom] at h
    cases a with
    | flush hookOps =>
      rw [runAction, hlock] at h
      simp only [lockAcquire, foldl_callBadgeOp] at h
      refine ih _ rfl ?_ h
      intro c hc
      rcases List.mem_append.mp hc with hm | hm
      · exact hcalls c hm
      · obtain ⟨op, _, hop⟩ := List.mem_map.mp hm
        rw [← hop]
    | webChangeBadge =>
      rw [runAction, hlock] at h
      simp only [lockAcquire, callBadgeOp] at h
      refine ih _ rfl ?_ h
      intro c hc
      rcases List.mem_append.mp hc with hm | hm
      · exact hcalls c hm
      · rw [List.mem_singleton.mp hm]

/-- C4: in every session trace — flushes whose presave/predelete hooks call
`next_badge_num` and `shift_badges`, and web calls to `change_badge`
(modelled from the spec as lock-gated) — every executed badge-number
operation observes `c.BADGE_LOCK` held, and the lock is free again at the
end of the trace. -/
theorem badge_ops_under_lock (acts : List SessionAction) (s : LockTrace)
    (h : runActions acts = some s) :
    (∀ c ∈ s.calls, c.2 = true) ∧ s.lock = false :=
  runActionsFrom_invariant acts ⟨false, []⟩ s rfl (by intro c hc; cases hc) h

/-- Witness for C4: a flush whose hooks allocate and shift badge numbers,
followed by a web badge change; every recorded call holds the lock. -/
theorem badge_ops_under_lock_witness :
    runActions [SessionAction.flush [BadgeOp.nextBadgeNumOp, BadgeOp.shiftBadgesOp],
        SessionAction.webChangeBadge]
      = some ⟨false, [(BadgeOp.nextBadgeNumOp, true), (BadgeOp.shiftBadgesOp, true),
          (BadgeOp.changeBadgeOp, true)]⟩
    ∧ ((∀ c ∈ (LockTrace.mk false [(BadgeOp.nextBadgeNumOp, true),
          (BadgeOp.shiftBadgesOp, true), (BadgeOp.changeBadgeOp, true)]).calls,
        c.2 = true)
      ∧ (LockTrace.mk false [(BadgeOp.nextBadgeNumOp, true),
          (BadgeOp.shiftBadgesOp, true), (BadgeOp.changeBadgeOp, true)]).lock
        = false) :=
  ⟨by decide,
   badge_ops_under_lock
     [SessionAction.flush [BadgeOp.nextBadgeNumOp, BadgeOp.shiftBadgesOp],
       SessionAction.webChangeBadge]
     ⟨false, [(BadgeOp.nextBadgeNumOp, true), (BadgeOp.shiftBadgesOp, true),
       (BadgeOp.changeBadgeOp, true)]⟩ (by decide)⟩

end Uber
